import Mathlib

/- Shallow embedding of the Pyxis buffer/commit/revert engine:
   components/data_storage.py, components/collect_filter.py,
   components/commit_handler.py and components/sink.py.
   Python dicts are insertion-ordered association lists, the SortedDict of
   collect filters is a list kept sorted by key, the bidict of filter
   priorities is an association list with the library's documented
   duplicate-value and fail-clean behaviour, and Python object references
   to commit-handler instances are natural-number identities into an
   explicit object store.  Operations that can raise return Except; a
   storage-level operation that raises carries the storage state as it
   stands at the moment of the raise, so that partial mutation before an
   exception is observable exactly as in Python. -/

/-- Python exceptions raised by the modelled code paths. -/
inductive PyErr where
  | runtimeError (msg : String)
  | keyError (key : String)
  | valueDuplicationError
  | indexError
  | fileNotFoundError
  deriving Repr, DecidableEq

/-- Keys of an insertion-ordered association list (a Python dict). -/
def dictKeys {β : Type} (d : List (String × β)) : List String :=
  d.map Prod.fst

/-- dict.pop(k) and bidict.pop(k): remove the entry for key k, returning the
value and the remaining entries; none when k is absent (Python raises
KeyError, mutating nothing). -/
def assocPop {β : Type} : List (String × β) → String → Option (β × List (String × β))
  | [], _ => none
  | (k, v) :: rest, key =>
    if k = key then some (v, rest)
    else
      match assocPop rest key with
      | none => none
      | some (w, r) => some (w, (k, v) :: r)

/-- SortedDict.pop(k) on the integer-keyed filter map. -/
def sortedPop {β : Type} : List (Int × β) → Int → Option (β × List (Int × β))
  | [], _ => none
  | (k, v) :: rest, key =>
    if k = key then some (v, rest)
    else
      match sortedPop rest key with
      | none => none
      | some (w, r) => some (w, (k, v) :: r)

/-- SortedDict assignment d[k] = v: insert keeping entries sorted by key
ascending, replacing the entry when the key is already present. -/
def sortedInsert {β : Type} : List (Int × β) → Int → β → List (Int × β)
  | [], k, v => [(k, v)]
  | (k', v') :: rest, k, v =>
    if k < k' then (k, v) :: (k', v') :: rest
    else if k = k' then (k, v) :: rest
    else (k', v') :: sortedInsert rest k v

/-- bidict assignment m[k] = v with the library's default on_dup policy:
a value already present under another key raises ValueDuplicationError
(and, bidict being fail-clean, the mapping is unchanged); an exact
duplicate item is a no-op; otherwise the key's value is written. -/
def bidictSet (m : List (String × Int)) (k : String) (v : Int) :
    Except PyErr (List (String × Int)) :=
  match m.find? (fun kv => kv.2 == v) with
  | some kv => if kv.1 = k then .ok m else .error .valueDuplicationError
  | none =>
    if k ∈ dictKeys m then
      .ok (m.map (fun kv => if kv.1 = k then (k, v) else kv))
    else
      .ok (m ++ [(k, v)])

/-- Values a callback registered on a commit handler can be: the
orchestrator's functools.partial(on_committed_text_return, self) under the
reserved name, or some other opaque callable. -/
inductive CallbackVal where
  | defaultCallback
  | other (id : Nat)
  deriving Repr, DecidableEq

/-- An ICommitHandler instance (commit_handler.py).  callbacks is the
AbstractCommitHandler registry.  The synchronous commit path is modelled
observationally: failing = true is a handler whose commit raises (for
example a TransparentCommitHandler one of whose callbacks raises), and
failing = false is a handler whose commit succeeds, in which case the
dispatched text is recorded in the observable log received. -/
structure CommitHandler where
  callbacks : List (String × CallbackVal)
  received : List String
  failing : Bool
  deriving Repr, DecidableEq

/-- AbstractCommitHandler.register_callback: raises on a duplicate callback
name before any mutation, otherwise adds the entry. -/
def CommitHandler.register_callback (h : CommitHandler) (name : String)
    (cb : CallbackVal) : Except PyErr CommitHandler :=
  if name ∈ dictKeys h.callbacks then
    .error (.runtimeError "Duplicate callback name")
  else
    .ok { h with callbacks := h.callbacks ++ [(name, cb)] }

/-- AbstractCommitHandler.deregister_callback: dict.pop raises KeyError on a
missing name, mutating nothing. -/
def CommitHandler.deregister_callback (h : CommitHandler) (name : String) :
    Except PyErr CommitHandler :=
  match assocPop h.callbacks name with
  | none => .error (.keyError name)
  | some (_, rest) => .ok { h with callbacks := rest }

/-- ICommitHandler.commit, observationally: a failing handler raises, a
succeeding handler records the dispatched text. -/
def CommitHandler.commit (h : CommitHandler) (data : String) :
    Except PyErr CommitHandler :=
  if h.failing then .error (.runtimeError "commit handler failure")
  else .ok { h with received := h.received ++ [data] }

/-- A collect filter is a Callable[[AnyStr], AnyStr]. -/
abbrev FilterFun := String → String

/-- The store of commit-handler instances, indexed by object identity. -/
abbrev HandlerHeap := List (Nat × CommitHandler)

/-- Dereference a handler object. -/
def heapGet : HandlerHeap → Nat → Option CommitHandler
  | [], _ => none
  | (k, h) :: rest, hid => if k = hid then some h else heapGet rest hid

/-- Update a handler object in place. -/
def heapSet (heap : HandlerHeap) (hid : Nat) (h : CommitHandler) : HandlerHeap :=
  heap.map (fun kv => if kv.1 = hid then (hid, h) else kv)

/-- The MemoryDataStorage state (data_storage.py).  sinks maps sink names to
opaque sink object identities; commit_handlers maps handler names to
handler object identities resolved in handler_objects, which models the
Python heap so that the aliasing of one handler instance across
registrations is faithful. -/
structure MemoryDataStorage where
  sinks : List (String × Nat)
  collect_filters : List (Int × FilterFun)
  collect_filters_priority_map : List (String × Int)
  commit_handlers : List (String × Nat)
  handler_objects : HandlerHeap
  working_space : List String
  committed_data : List String

/-- MemoryDataStorage.__init__: every registry empty. -/
def emptyStorage : MemoryDataStorage :=
  { sinks := [], collect_filters := [], collect_filters_priority_map := [],
    commit_handlers := [], handler_objects := [],
    working_space := [], committed_data := [] }

/-- AbstractDataStorage.register_sink. -/
def MemoryDataStorage.register_sink (s : MemoryDataStorage) (name : String)
    (sid : Nat) : Except (PyErr × MemoryDataStorage) MemoryDataStorage :=
  if name ∈ dictKeys s.sinks then
    .error (.runtimeError "Duplicate sink name", s)
  else
    .ok { s with sinks := s.sinks ++ [(name, sid)] }

/-- AbstractDataStorage.deregister_sink: dict.pop raises KeyError on a
missing name. -/
def MemoryDataStorage.deregister_sink (s : MemoryDataStorage) (name : String) :
    Except (PyErr × MemoryDataStorage) MemoryDataStorage :=
  match assocPop s.sinks name with
  | none => .error (.keyError name, s)
  | some (_, rest) => .ok { s with sinks := rest }

/-- AbstractDataStorage.register_collect_filter: the duplicate-name check
runs first; then the bidict assignment (which itself raises on a duplicate
priority value, fail-clean); then the explicit duplicate-priority check on
the SortedDict, which if it fires leaves the priority map already
mutated; finally the SortedDict assignment. -/
def MemoryDataStorage.register_collect_filter (s : MemoryDataStorage)
    (fname : String) (priority : Int) (f : FilterFun) :
    Except (PyErr × MemoryDataStorage) MemoryDataStorage :=
  if fname ∈ dictKeys s.collect_filters_priority_map then
    .error (.runtimeError "Duplicate filter name", s)
  else
    match bidictSet s.collect_filters_priority_map fname priority with
    | .error e => .error (e, s)
    | .ok m =>
      if priority ∈ s.collect_filters.map Prod.fst then
        .error (.runtimeError "Duplicate filter priority",
                { s with collect_filters_priority_map := m })
      else
        .ok { s with collect_filters_priority_map := m,
                     collect_filters := sortedInsert s.collect_filters priority f }

/-- AbstractDataStorage.deregister_collect_filter: the bidict pop raises
KeyError on a missing name (fail-clean); then the SortedDict pop removes
the priority slot. -/
def MemoryDataStorage.deregister_collect_filter (s : MemoryDataStorage)
    (fname : String) : Except (PyErr × MemoryDataStorage) MemoryDataStorage :=
  match assocPop s.collect_filters_priority_map fname with
  | none => .error (.keyError fname, s)
  | some (priority, m) =>
    match sortedPop s.collect_filters priority with
    | none => .error (.keyError (toString priority),
                      { s with collect_filters_priority_map := m })
    | some (_, fs) =>
      .ok { s with collect_filters_priority_map := m, collect_filters := fs }

/-- AbstractDataStorage.on_push_to_buffer: fold the text through the
collect filters in SortedDict iteration order, i.e. ascending priority. -/
def MemoryDataStorage.on_push_to_buffer (s : MemoryDataStorage)
    (text : String) : String :=
  s.collect_filters.foldl (fun middle_value kv => kv.2 middle_value) text

/-- MemoryDataStorage.push_to_buffer. -/
def MemoryDataStorage.push_to_buffer (s : MemoryDataStorage)
    (text : String) : MemoryDataStorage :=
  { s with working_space := s.working_space ++ [s.on_push_to_buffer text] }

/-- MemoryDataStorage.pop_buffer: remove the last fragment when the buffer
is non-empty, otherwise do nothing. -/
def MemoryDataStorage.pop_buffer (s : MemoryDataStorage) : MemoryDataStorage :=
  if 0 < s.working_space.length then
    { s with working_space := s.working_space.dropLast }
  else s

/-- AbstractDataStorage.register_commit_handler: duplicate-name check on the
registry first; then register_callback under the reserved name on the
handler instance itself (which raises if that instance already carries the
reserved callback); then record the name-to-instance binding. -/
def MemoryDataStorage.register_commit_handler (s : MemoryDataStorage)
    (name : String) (hid : Nat) :
    Except (PyErr × MemoryDataStorage) MemoryDataStorage :=
  if name ∈ dictKeys s.commit_handlers then
    .error (.runtimeError "Duplicate commit handler name", s)
  else
    match heapGet s.handler_objects hid with
    | none => .error (.keyError (toString hid), s)
    | some h =>
      match h.register_callback "default_callback" .defaultCallback with
      | .error e => .error (e, s)
      | .ok h2 =>
        .ok { s with handler_objects := heapSet s.handler_objects hid h2,
                     commit_handlers := s.commit_handlers ++ [(name, hid)] }

/-- AbstractDataStorage.deregister_commit_handler: pops the registry entry
only; the handler instance itself is untouched. -/
def MemoryDataStorage.deregister_commit_handler (s : MemoryDataStorage)
    (name : String) : Except (PyErr × MemoryDataStorage) MemoryDataStorage :=
  match assocPop s.commit_handlers name with
  | none => .error (.keyError name, s)
  | some (_, rest) => .ok { s with commit_handlers := rest }

/-- The dispatch loop inside MemoryDataStorage.commit: call commit on each
registered handler in registry order; the first raise propagates, leaving
the handlers already dispatched-to updated and everything after the raise
untouched. -/
def commitLoop (text : String) :
    List (String × Nat) → HandlerHeap → Except (PyErr × HandlerHeap) HandlerHeap
  | [], heap => .ok heap
  | (_, hid) :: rest, heap =>
    match heapGet heap hid with
    | none => .error (.keyError (toString hid), heap)
    | some h =>
      match h.commit text with
      | .error e => .error (e, heap)
      | .ok h2 => commitLoop text rest (heapSet heap hid h2)

/-- MemoryDataStorage.commit: return immediately on an empty buffer;
otherwise dispatch the concatenation of the buffer to every handler in
registry order and then clear the buffer.  A raise inside the loop
propagates before the clear is reached. -/
def MemoryDataStorage.commit (s : MemoryDataStorage) :
    Except (PyErr × MemoryDataStorage) MemoryDataStorage :=
  if s.working_space.length = 0 then .ok s
  else
    match commitLoop (String.join s.working_space) s.commit_handlers
        s.handler_objects with
    | .ok heap2 => .ok { s with handler_objects := heap2, working_space := [] }
    | .error (e, heap2) => .error (e, { s with handler_objects := heap2 })

/-- Whitespace characters matched by the regex class backslash-s on the
ASCII inputs the filters are used with. -/
def pyIsSpace (c : Char) : Bool :=
  c == ' ' || c == '\t' || c == '\n' || c == '\r' || c == '\x0b' || c == '\x0c'

/-- WhitespaceFilter.filter (collect_filter.py): re.sub of every whitespace
character with the empty string, i.e. drop every whitespace character. -/
def WhitespaceFilter.filter (input_text : String) : String :=
  String.mk (input_text.data.filter (fun c => !(pyIsSpace c)))

/-- AppendSpaceFilter.filter scan: re.sub of each dot followed by its
maximal whitespace run with a dot and one space, as a left-to-right
non-overlapping replacement.  The flag records that the scanner is inside
the whitespace run of a match just emitted. -/
def appendSpaceAux : Bool → List Char → List Char
  | _, [] => []
  | skipping, c :: rest =>
    if skipping && pyIsSpace c then appendSpaceAux true rest
    else if c == '.' then '.' :: ' ' :: appendSpaceAux true rest
    else c :: appendSpaceAux false rest

/-- AppendSpaceFilter.filter (collect_filter.py). -/
def AppendSpaceFilter.filter (input_text : String) : String :=
  String.mk (appendSpaceAux false input_text.data)

/-- data.count of the newline character, as pushed by FileSink.append_data
onto its undo stack. -/
def countNewlines (data : String) : Nat :=
  data.data.count '\n'

/-- Python file.readlines: split the contents after every newline, keeping
the newline at the end of each piece; a trailing piece without a newline is
kept when non-empty. -/
def pyReadlinesAux : List Char → List Char → List String
  | [], acc => if acc.isEmpty then [] else [String.mk acc.reverse]
  | c :: cs, acc =>
    if c == '\n' then String.mk (acc.reverse ++ ['\n']) :: pyReadlinesAux cs []
    else pyReadlinesAux cs (c :: acc)

/-- Python file.readlines on whole contents. -/
def pyReadlines (contents : String) : List String :=
  pyReadlinesAux contents.data []

/-- Python slice l[:-n]: empty when n = 0, otherwise everything but the
last n elements. -/
def pySliceDropLastNeg {α : Type} (l : List α) (n : Nat) : List α :=
  if n = 0 then [] else l.take (l.length - n)

/-- A FileSink (sink.py): the file at its path (none when the file does not
exist) together with the undo stack of per-append newline counts; the top
of the stack is the last element, as for a Python list. -/
structure FileSink where
  file : Option String
  appended_length_stack : List Nat
  deriving Repr, DecidableEq

/-- FileSink.append_data: open for append when the file exists, else for
write (creating it); write the data; push data.count of newline onto the
undo stack. -/
def FileSink.append_data (s : FileSink) (data : String) : FileSink :=
  { file := some ((s.file.getD "") ++ data),
    appended_length_stack := s.appended_length_stack ++ [countNewlines data] }

/-- FileSink.revert: read all lines (raising FileNotFoundError when the
file is absent); reopen for write, which truncates the file at once; index
the top of the undo stack (raising IndexError, with the file already
truncated, when the stack is empty); write every line of the slice up to
minus that count, each with an extra newline appended; pop the stack. -/
def FileSink.revert (s : FileSink) : Except (PyErr × FileSink) FileSink :=
  match s.file with
  | none => .error (.fileNotFoundError, s)
  | some contents =>
    match s.appended_length_stack.getLast? with
    | none => .error (.indexError, { s with file := some "" })
    | some n =>
      .ok { file := some (String.join
              ((pySliceDropLastNeg (pyReadlines contents) n).map
                (fun line => line ++ "\n"))),
            appended_length_stack := s.appended_length_stack.dropLast }

/-- A ClipboardSink (sink.py): its recorded clipboard history.  The system
clipboard that pyperclip reads and writes is passed explicitly. -/
structure ClipboardSink where
  clipboard_history : List String
  deriving Repr, DecidableEq

/-- ClipboardSink.append_data: record the current system clipboard in the
history, then copy the data to the system clipboard.  Returns the new sink
state and the new system clipboard contents. -/
def ClipboardSink.append_data (c : ClipboardSink) (clipboard data : String) :
    ClipboardSink × String :=
  ({ clipboard_history := c.clipboard_history ++ [clipboard] }, data)

/-- ClipboardSink.revert: when the history is empty, log a warning and do
nothing; otherwise copy the popped history entry back to the system
clipboard.  Returns the sink state, the system clipboard contents and
whether the empty-history warning was logged. -/
def ClipboardSink.revert (c : ClipboardSink) (clipboard : String) :
    ClipboardSink × String × Bool :=
  match c.clipboard_history.getLast? with
  | none => (c, clipboard, true)
  | some last =>
    ({ clipboard_history := c.clipboard_history.dropLast }, last, false)

/-- Push a whole sequence of raw texts, in order. -/
def pushAll (s : MemoryDataStorage) (ts : List String) : MemoryDataStorage :=
  ts.foldl MemoryDataStorage.push_to_buffer s

/-- Register a whole sequence of collect filters, in order, stopping at the
first raise. -/
def register_all (s : MemoryDataStorage) :
    List (String × Int × FilterFun) → Except (PyErr × MemoryDataStorage) MemoryDataStorage
  | [] => .ok s
  | (n, p, f) :: rest =>
    match s.register_collect_filter n p f with
    | .error e => .error e
    | .ok s2 => register_all s2 rest

/-- The filter-chain registrations of the C6 scenario, in spec order. -/
def chainRegsA : List (String × Int × FilterFun) :=
  [("stripWhitespace", 0, WhitespaceFilter.filter),
   ("appendPeriodSpace", 1, AppendSpaceFilter.filter)]

/-- The same registrations in the opposite order. -/
def chainRegsB : List (String × Int × FilterFun) :=
  [("appendPeriodSpace", 1, AppendSpaceFilter.filter),
   ("stripWhitespace", 0, WhitespaceFilter.filter)]

/-- The storage produced by registering chainRegsA on a fresh storage. -/
def chainStorageA : MemoryDataStorage :=
  { sinks := [],
    collect_filters := [(0, WhitespaceFilter.filter), (1, AppendSpaceFilter.filter)],
    collect_filters_priority_map := [("stripWhitespace", 0), ("appendPeriodSpace", 1)],
    commit_handlers := [], handler_objects := [],
    working_space := [], committed_data := [] }

/-- The storage produced by registering chainRegsB on a fresh storage: the
priority map records the other insertion order, the sorted filter chain is
identical. -/
def chainStorageB : MemoryDataStorage :=
  { sinks := [],
    collect_filters := [(0, WhitespaceFilter.filter), (1, AppendSpaceFilter.filter)],
    collect_filters_priority_map := [("appendPeriodSpace", 1), ("stripWhitespace", 0)],
    commit_handlers := [], handler_objects := [],
    working_space := [], committed_data := [] }

/-- The filter chain iterates in strictly ascending priority order. -/
def prioritiesAscending {β : Type} (l : List (Int × β)) : Prop :=
  l.Pairwise (fun a b => a.1 < b.1)

/-- A commit handler instance that has been registered with the
orchestrator (so carries the reserved callback) and whose commit
succeeds. -/
def recHandler : CommitHandler :=
  { callbacks := [("default_callback", .defaultCallback)],
    received := [], failing := false }

/-- A registered commit handler instance whose synchronous commit path
raises. -/
def badHandler : CommitHandler :=
  { callbacks := [("default_callback", .defaultCallback)],
    received := [], failing := true }

/-- A freshly constructed commit handler instance, not yet registered with
the orchestrator. -/
def freshHandler : CommitHandler :=
  { callbacks := [], received := [], failing := false }

/-- A storage holding a failing handler registered before a succeeding
one, with one fragment in the buffer. -/
def commitFailStorage : MemoryDataStorage :=
  { sinks := [], collect_filters := [], collect_filters_priority_map := [],
    commit_handlers := [("bad", 1), ("rec", 2)],
    handler_objects := [(1, badHandler), (2, recHandler)],
    working_space := ["x"], committed_data := [] }

/-- A storage holding a succeeding handler registered before a failing
one, with one fragment in the buffer. -/
def commitFailStorage2 : MemoryDataStorage :=
  { sinks := [], collect_filters := [], collect_filters_priority_map := [],
    commit_handlers := [("rec", 2), ("bad", 1)],
    handler_objects := [(1, badHandler), (2, recHandler)],
    working_space := ["x"], committed_data := [] }

/-- A storage with one succeeding commit handler registered and an empty
buffer. -/
def dispatchStorage : MemoryDataStorage :=
  { sinks := [], collect_filters := [], collect_filters_priority_map := [],
    commit_handlers := [("t", 1)], handler_objects := [(1, recHandler)],
    working_space := [], committed_data := [] }

/-- A storage whose heap holds one fresh handler instance, none
registered yet. -/
def c9Storage0 : MemoryDataStorage :=
  { sinks := [], collect_filters := [], collect_filters_priority_map := [],
    commit_handlers := [], handler_objects := [(1, freshHandler)],
    working_space := [], committed_data := [] }

/-- c9Storage0 after registering its handler instance under the name n:
the instance now carries the reserved callback. -/
def c9Storage1 : MemoryDataStorage :=
  { sinks := [], collect_filters := [], collect_filters_priority_map := [],
    commit_handlers := [("n", 1)], handler_objects := [(1, recHandler)],
    working_space := [], committed_data := [] }

/-- A storage with one collect filter named a registered at priority 0. -/
def dupFilterStorage : MemoryDataStorage :=
  { sinks := [], collect_filters := [(0, WhitespaceFilter.filter)],
    collect_filters_priority_map := [("a", 0)],
    commit_handlers := [], handler_objects := [],
    working_space := [], committed_data := [] }

theorem assocPop_eq_none {β : Type} (d : List (String × β)) (k : String)
    (h : k ∉ dictKeys d) : assocPop d k = none := by
  induction d with
  | nil => rfl
  | cons kv rest ih =>
    obtain ⟨k1, v1⟩ := kv
    simp only [dictKeys, List.map_cons, List.mem_cons, not_or] at h
    have hne : ¬ k1 = k := fun hh => h.1 hh.symm
    simp [assocPop, hne, ih (by simpa [dictKeys] using h.2)]

theorem assocPop_append_last {β : Type} (d : List (String × β)) (k : String)
    (v : β) (h : k ∉ dictKeys d) : assocPop (d ++ [(k, v)]) k = some (v, d) := by
  induction d with
  | nil => simp [assocPop]
  | cons kv rest ih =>
    obtain ⟨k1, v1⟩ := kv
    simp only [dictKeys, List.map_cons, List.mem_cons, not_or] at h
    have hne : ¬ k1 = k := fun hh => h.1 hh.symm
    simp [assocPop, hne, ih (by simpa [dictKeys] using h.2)]

/-- C3: for every output sink, calling revert with an empty undo history is
a reported non-fatal condition leaving the state unchanged.  The claim is
the spec's intent and holds for ClipboardSink, but FileSink.revert on an
empty undo stack raises IndexError, and does so only after the write-mode
reopen has already truncated the file: the code both throws and destroys
the sink state. -/
theorem revert_on_empty_history :
    FileSink.revert { file := some "a\n", appended_length_stack := [] }
      = .error (.indexError, { file := some "", appended_length_stack := [] })
    ∧ ∀ clipboard : String,
        ClipboardSink.revert { clipboard_history := [] } clipboard
          = ({ clipboard_history := [] }, clipboard, true) :=
  ⟨rfl, fun _ => rfl⟩

/-- C2: revert called once after one append_data restores the sink's
observable state.  This holds for ClipboardSink (last conjunct, for every
sink state), but fails for FileSink: appending a fragment without a
newline to a file containing one line and reverting wipes the file instead
of restoring it, because Python's lines[:-0] slice is empty. -/
theorem sink_append_revert :
    FileSink.append_data { file := some "x\n", appended_length_stack := [] } "abc"
      = { file := some "x\nabc", appended_length_stack := [0] }
    ∧ FileSink.revert { file := some "x\nabc", appended_length_stack := [0] }
        = .ok { file := some "", appended_length_stack := [] }
    ∧ (Except.ok { file := some "", appended_length_stack := [] }
        ≠ (Except.ok { file := some "x\n", appended_length_stack := [] }
            : Except (PyErr × FileSink) FileSink))
    ∧ ∀ (c : ClipboardSink) (clipboard data : String),
        ((c.append_data clipboard data).1).revert (c.append_data clipboard data).2
          = (c, clipboard, false) := by
  refine ⟨rfl, rfl, ?_, ?_⟩
  · intro h
    simp only [Except.ok.injEq, FileSink.mk.injEq, Option.some.injEq] at h
    exact absurd h.1 (by decide)
  · intro c clipboard data
    cases c
    simp [ClipboardSink.append_data, ClipboardSink.revert]

/-- C6: with the whitespace-stripping filter at priority 0 and the
append-period-space filter at priority 1, pushing the raw text a-space-b-dot
appends exactly the fragment ab-dot-space to the buffer. -/
theorem push_filter_scenario :
    (register_all emptyStorage chainRegsA).map
        (fun s => (s.push_to_buffer "a b.").working_space)
      = .ok ["ab. "] := rfl

/-- C8: pop_buffer immediately after push_to_buffer restores the entire
pre-push storage, and pop_buffer on an empty buffer is a no-op (it is a
total function, so it never raises). -/
theorem pop_buffer_inverse (s : MemoryDataStorage) (text : String) :
    (s.push_to_buffer text).pop_buffer = s
    ∧ (s.working_space = [] → s.pop_buffer = s) := by
  constructor
  · simp [MemoryDataStorage.push_to_buffer, MemoryDataStorage.pop_buffer,
      List.dropLast_concat]
  · intro h
    simp [MemoryDataStorage.pop_buffer, h]

/-- C8 witness: pop_buffer on the freshly initialised storage, whose
buffer is empty, returns it unchanged. -/
theorem pop_buffer_inverse_witness : emptyStorage.pop_buffer = emptyStorage :=
  (pop_buffer_inverse emptyStorage "x").2 rfl

/-- C10: every deregistration with an unregistered name raises KeyError
rather than being a no-op, and the state carried at the raise is exactly
the pre-call state, every registry unchanged. -/
theorem deregister_missing_name (s : MemoryDataStorage) (h : CommitHandler)
    (name : String)
    (h1 : name ∉ dictKeys s.sinks)
    (h2 : name ∉ dictKeys s.collect_filters_priority_map)
    (h3 : name ∉ dictKeys s.commit_handlers)
    (h4 : name ∉ dictKeys h.callbacks) :
    s.deregister_sink name = .error (.keyError name, s)
    ∧ s.deregister_collect_filter name = .error (.keyError name, s)
    ∧ s.deregister_commit_handler name = .error (.keyError name, s)
    ∧ h.deregister_callback name = .error (.keyError name) := by
  refine ⟨?_, ?_, ?_, ?_⟩
  · simp [MemoryDataStorage.deregister_sink, assocPop_eq_none _ _ h1]
  · simp [MemoryDataStorage.deregister_collect_filter, assocPop_eq_none _ _ h2]
  · simp [MemoryDataStorage.deregister_commit_handler, assocPop_eq_none _ _ h3]
  · simp [CommitHandler.deregister_callback, assocPop_eq_none _ _ h4]

theorem heapSet_cons (k1 : Nat) (v1 : CommitHandler) (rest : HandlerHeap)
    (hid : Nat) (h : CommitHandler) :
    heapSet ((k1, v1) :: rest) hid h
      = (if k1 = hid then (hid, h) else (k1, v1)) :: heapSet rest hid h := by
  by_cases hk : k1 = hid
  · simp [heapSet, hk]
  · simp [heapSet, hk]

theorem heapGet_heapSet_self (heap : HandlerHeap) (hid : Nat)
    (h h0 : CommitHandler) (hget : heapGet heap hid = some h0) :
    heapGet (heapSet heap hid h) hid = some h := by
  induction heap with
  | nil => simp [heapGet] at hget
  | cons kv rest ih =>
    obtain ⟨k1, v1⟩ := kv
    rw [heapSet_cons]
    by_cases hk : k1 = hid
    · rw [if_pos hk]
      simp [heapGet]
    · rw [if_neg hk]
      simp only [heapGet, if_neg hk] at hget ⊢
      exact ih hget

theorem heapGet_heapSet_ne (heap : HandlerHeap) (hid kid : Nat)
    (h : CommitHandler) (hne : kid ≠ hid) :
    heapGet (heapSet heap hid h) kid = heapGet heap kid := by
  induction heap with
  | nil => rfl
  | cons kv rest ih =>
    obtain ⟨k1, v1⟩ := kv
    rw [heapSet_cons]
    by_cases hk : k1 = hid
    · rw [if_pos hk, hk]
      simp only [heapGet, if_neg (Ne.symm hne)]
      exact ih
    · rw [if_neg hk]
      by_cases hk2 : k1 = kid
      · simp only [heapGet, if_pos hk2]
      · simp only [heapGet, if_neg hk2]
        exact ih

theorem commitLoop_ok (text : String) (reg : List (String × Nat)) :
    ∀ heap : HandlerHeap,
    (∀ p ∈ reg, ∃ h : CommitHandler,
       heapGet heap p.2 = some h ∧ h.failing = false) →
    (reg.map Prod.snd).Nodup →
    ∃ heap2, commitLoop text reg heap = .ok heap2
      ∧ (∀ p ∈ reg, ∀ h : CommitHandler, heapGet heap p.2 = some h →
           heapGet heap2 p.2 = some { h with received := h.received ++ [text] })
      ∧ (∀ kid, kid ∉ reg.map Prod.snd →
           heapGet heap2 kid = heapGet heap kid) := by
  induction reg with
  | nil =>
    intro heap _ _
    exact ⟨heap, rfl, by simp, fun kid _ => rfl⟩
  | cons p rest ih =>
    intro heap hok hnd
    obtain ⟨n, hid⟩ := p
    obtain ⟨h, hget, hfail⟩ := hok (n, hid) (List.mem_cons_self _ _)
    have hcommit : h.commit text = .ok { h with received := h.received ++ [text] } := by
      simp [CommitHandler.commit, hfail]
    simp only [List.map_cons, List.nodup_cons] at hnd
    obtain ⟨hnotin, hndrest⟩ := hnd
    have hrest : ∀ p ∈ rest, ∃ hh : CommitHandler,
        heapGet (heapSet heap hid { h with received := h.received ++ [text] }) p.2
          = some hh ∧ hh.failing = false := by
      intro p hp
      have hne : p.2 ≠ hid := by
        intro he
        exact hnotin (he ▸ List.mem_map_of_mem Prod.snd hp)
      rw [heapGet_heapSet_ne _ _ _ _ hne]
      exact hok p (List.mem_cons_of_mem _ hp)
    obtain ⟨heap2, hloop, hrec, hframe⟩ :=
      ih (heapSet heap hid { h with received := h.received ++ [text] }) hrest hndrest
    refine ⟨heap2, ?_, ?_, ?_⟩
    · simp [commitLoop, hget, hcommit, hloop]
    · intro p hp hh hgethh
      rcases List.mem_cons.mp hp with he | hp2
      · have hid2 : p.2 = hid := by rw [he]
        rw [hid2] at hgethh ⊢
        rw [hget] at hgethh
        injection hgethh with hhh
        subst hhh
        rw [hframe hid hnotin]
        exact heapGet_heapSet_self heap hid _ h hget
      · have hne : p.2 ≠ hid := by
          intro he
          exact hnotin (he ▸ List.mem_map_of_mem Prod.snd hp2)
        have := heapGet_heapSet_ne heap hid p.2
          { h with received := h.received ++ [text] } hne
        exact hrec p hp2 hh (by rw [this]; exact hgethh)
    · intro kid hkid
      simp only [List.map_cons, List.mem_cons, not_or] at hkid
      rw [hframe kid hkid.2,
        heapGet_heapSet_ne heap hid kid _ hkid.1]

theorem commitLoop_error (text : String) (pre : List (String × Nat)) :
    ∀ (nf : String) (fid : Nat) (post : List (String × Nat))
      (heap : HandlerHeap) (hf : CommitHandler),
    (∀ p ∈ pre, ∃ h : CommitHandler,
       heapGet heap p.2 = some h ∧ h.failing = false) →
    ((pre ++ (nf, fid) :: post).map Prod.snd).Nodup →
    heapGet heap fid = some hf → hf.failing = true →
    ∃ heap2, commitLoop text (pre ++ (nf, fid) :: post) heap
        = .error (.runtimeError "commit handler failure", heap2)
      ∧ (∀ p ∈ pre, ∀ h : CommitHandler, heapGet heap p.2 = some h →
           heapGet heap2 p.2 = some { h with received := h.received ++ [text] })
      ∧ (∀ kid, kid ∉ pre.map Prod.snd →
           heapGet heap2 kid = heapGet heap kid) := by
  induction pre with
  | nil =>
    intro nf fid post heap hf _ _ hget hfail
    refine ⟨heap, ?_, by simp, fun kid _ => rfl⟩
    simp [commitLoop, hget, CommitHandler.commit, hfail]
  | cons p rest ih =>
    intro nf fid post heap hf hok hnd hget hfail
    obtain ⟨n, hid⟩ := p
    obtain ⟨h, hgeth, hfailh⟩ := hok (n, hid) (List.mem_cons_self _ _)
    have hcommit : h.commit text = .ok { h with received := h.received ++ [text] } := by
      simp [CommitHandler.commit, hfailh]
    simp only [List.cons_append, List.map_cons, List.nodup_cons] at hnd
    obtain ⟨hnotin, hndrest⟩ := hnd
    have hidne : hid ≠ fid := by
      intro he
      exact hnotin (by simp [he])
    have hrest : ∀ p ∈ rest, ∃ hh : CommitHandler,
        heapGet (heapSet heap hid { h with received := h.received ++ [text] }) p.2
          = some hh ∧ hh.failing = false := by
      intro p hp
      have hne : p.2 ≠ hid := by
        intro he
        exact hnotin (by simp [← he, List.mem_map_of_mem Prod.snd hp])
      rw [heapGet_heapSet_ne _ _ _ _ hne]
      exact hok p (List.mem_cons_of_mem _ hp)
    have hgetf : heapGet (heapSet heap hid
        { h with received := h.received ++ [text] }) fid = some hf := by
      rw [heapGet_heapSet_ne _ _ _ _ (Ne.symm hidne)]
      exact hget
    obtain ⟨heap2, hloop, hrec, hframe⟩ :=
      ih nf fid post (heapSet heap hid { h with received := h.received ++ [text] })
        hf hrest hndrest hgetf hfail
    refine ⟨heap2, ?_, ?_, ?_⟩
    · simp [commitLoop, hgeth, hcommit, hloop]
    · intro p hp hh hgethh
      rcases List.mem_cons.mp hp with he | hp2
      · have hid2 : p.2 = hid := by rw [he]
        rw [hid2] at hgethh ⊢
        rw [hgeth] at hgethh
        injection hgethh with hhh
        subst hhh
        rw [hframe hid (fun hm => hnotin (by simp [hm]))]
        exact heapGet_heapSet_self heap hid _ h hgeth
      · have hne : p.2 ≠ hid := by
          intro he
          exact hnotin (by simp [← he, List.mem_map_of_mem Prod.snd hp2])
        have heq := heapGet_heapSet_ne heap hid p.2
          { h with received := h.received ++ [text] } hne
        exact hrec p hp2 hh (by rw [heq]; exact hgethh)
    · intro kid hkid
      simp only [List.map_cons, List.mem_cons, not_or] at hkid
      rw [hframe kid hkid.2,
        heapGet_heapSet_ne heap hid kid _ hkid.1]

/-- C10 witness: on the freshly initialised storage and a fresh handler,
deregistering the unknown name x raises KeyError everywhere with the state
unchanged. -/
theorem deregister_missing_name_witness :
    emptyStorage.deregister_sink "x" = .error (.keyError "x", emptyStorage)
    ∧ emptyStorage.deregister_collect_filter "x"
        = .error (.keyError "x", emptyStorage)
    ∧ emptyStorage.deregister_commit_handler "x"
        = .error (.keyError "x", emptyStorage)
    ∧ freshHandler.deregister_callback "x" = .error (.keyError "x") :=
  deregister_missing_name emptyStorage freshHandler "x"
    (by simp [emptyStorage, dictKeys]) (by simp [emptyStorage, dictKeys])
    (by simp [emptyStorage, dictKeys]) (by simp [freshHandler, dictKeys])

theorem pushAll_eq (ts : List String) : ∀ s : MemoryDataStorage,
    pushAll s ts
      = { s with working_space :=
            s.working_space ++ ts.map s.on_push_to_buffer } := by
  induction ts with
  | nil => intro s; simp [pushAll]
  | cons t ts ih =>
    intro s
    have h1 : pushAll s (t :: ts) = pushAll (s.push_to_buffer t) ts := rfl
    rw [h1, ih]
    simp only [MemoryDataStorage.push_to_buffer]
    have h2 : ∀ a : String,
        ({ s with working_space := s.working_space ++ [s.on_push_to_buffer t]
          } : MemoryDataStorage).on_push_to_buffer a
          = s.on_push_to_buffer a := fun _ => rfl
    simp [h2]

/-- C1 amended: when the synchronous commit path of one registered commit
handler raises during commit, the error propagates from commit with the
buffer NOT cleared; the handlers registered before the failing one (in
registry order) have already received the dispatch with the concatenated
buffer content, while the failing handler and every handler after it are
left untouched, never receiving the dispatch. -/
theorem commit_handler_failure (s : MemoryDataStorage)
    (pre post : List (String × Nat)) (nf : String) (fid : Nat)
    (hf : CommitHandler)
    (hreg : s.commit_handlers = pre ++ (nf, fid) :: post)
    (hws : s.working_space ≠ [])
    (hnd : (s.commit_handlers.map Prod.snd).Nodup)
    (hok : ∀ p ∈ pre, ∃ h : CommitHandler,
       heapGet s.handler_objects p.2 = some h ∧ h.failing = false)
    (hget : heapGet s.handler_objects fid = some hf)
    (hfail : hf.failing = true) :
    ∃ heap2,
      s.commit = .error (.runtimeError "commit handler failure",
          { s with handler_objects := heap2 })
      ∧ (∀ p ∈ pre, ∀ h : CommitHandler,
           heapGet s.handler_objects p.2 = some h →
           heapGet heap2 p.2
             = some { h with received :=
                 h.received ++ [String.join s.working_space] })
      ∧ (∀ kid, kid ∉ pre.map Prod.snd →
           heapGet heap2 kid = heapGet s.handler_objects kid) := by
  obtain ⟨heap2, hloop, hrec, hframe⟩ :=
    commitLoop_error (String.join s.working_space) pre nf fid post
      s.handler_objects hf hok (hreg ▸ hnd) hget hfail
  refine ⟨heap2, ?_, hrec, hframe⟩
  have hlen : ¬ s.working_space.length = 0 := by
    simpa [List.length_eq_zero] using hws
  simp [MemoryDataStorage.commit, hlen, hreg, hloop]

/-- C1 witness: with a succeeding handler registered before a failing one
and a fragment in the buffer, commit propagates the failure; the first
handler has received the concatenated buffer and the buffer is intact. -/
theorem commit_handler_failure_witness :
    ∃ heap2,
      commitFailStorage2.commit
        = .error (.runtimeError "commit handler failure",
            { commitFailStorage2 with handler_objects := heap2 })
      ∧ (∀ p ∈ [("rec", 2)], ∀ h : CommitHandler,
           heapGet commitFailStorage2.handler_objects p.2 = some h →
           heapGet heap2 p.2
             = some { h with received :=
                 h.received ++ [String.join commitFailStorage2.working_space] })
      ∧ (∀ kid, kid ∉ [("rec", 2)].map Prod.snd →
           heapGet heap2 kid
             = heapGet commitFailStorage2.handler_objects kid) :=
  commit_handler_failure commitFailStorage2 [("rec", 2)] [] "bad" 1 badHandler
    rfl (by simp [commitFailStorage2]) (by decide)
    (by
      intro p hp
      simp only [List.mem_singleton] at hp
      subst hp
      exact ⟨recHandler, rfl, rfl⟩)
    rfl rfl

/-- C1 counterexample: the claim as stated fails on the code.  With a
failing handler registered before a succeeding one and the fragment x in
the buffer, commit raises while the succeeding handler has received
nothing and the buffer still holds x, i.e. it was not cleared to Empty. -/
theorem commit_handler_failure_counterexample :
    commitFailStorage.commit
      = .error (.runtimeError "commit handler failure", commitFailStorage)
    ∧ heapGet commitFailStorage.handler_objects 2 = some recHandler
    ∧ recHandler.received = []
    ∧ commitFailStorage.working_space = ["x"] :=
  ⟨rfl, rfl, rfl, rfl⟩

/-- C4: for every sequence of pushes onto a storage whose registered
handlers all have a succeeding commit path, commit on the resulting
non-empty buffer dispatches to every registered handler exactly the
concatenation of the filtered fragments in push order and clears the
buffer, while commit on the empty buffer returns the storage unchanged,
with no dispatch recorded anywhere. -/
theorem commit_dispatch (s0 : MemoryDataStorage) (ts : List String)
    (h0 : s0.working_space = [])
    (hne : ts ≠ [])
    (hnd : (s0.commit_handlers.map Prod.snd).Nodup)
    (hok : ∀ p ∈ s0.commit_handlers, ∃ h : CommitHandler,
       heapGet s0.handler_objects p.2 = some h ∧ h.failing = false) :
    s0.commit = .ok s0
    ∧ ∃ heap2,
        (pushAll s0 ts).commit
          = .ok { s0 with working_space := [], handler_objects := heap2 }
        ∧ (∀ p ∈ s0.commit_handlers, ∀ h : CommitHandler,
             heapGet s0.handler_objects p.2 = some h →
             heapGet heap2 p.2
               = some { h with received := h.received
                   ++ [String.join (ts.map s0.on_push_to_buffer)] })
        ∧ (∀ kid, kid ∉ s0.commit_handlers.map Prod.snd →
             heapGet heap2 kid = heapGet s0.handler_objects kid) := by
  constructor
  · simp [MemoryDataStorage.commit, h0]
  · obtain ⟨heap2, hloop, hrec, hframe⟩ :=
      commitLoop_ok (String.join (ts.map s0.on_push_to_buffer))
        s0.commit_handlers s0.handler_objects hok hnd
    refine ⟨heap2, ?_, hrec, hframe⟩
    rw [pushAll_eq, h0]
    have hlen : ¬ (ts.map s0.on_push_to_buffer).length = 0 := by
      simpa [List.length_eq_zero] using hne
    simp [MemoryDataStorage.commit, hlen, hloop]
    exact fun hts => absurd hts hne

/-- C4 witness: pushing a then b onto a storage with one succeeding
handler and committing dispatches the concatenation of the two filtered
fragments to it and clears the buffer; commit on the storage before the
pushes, whose buffer is empty, is the identity. -/
theorem commit_dispatch_witness :
    dispatchStorage.commit = .ok dispatchStorage
    ∧ ∃ heap2,
        (pushAll dispatchStorage ["a", "b"]).commit
          = .ok { dispatchStorage with working_space := [], handler_objects := heap2 }
        ∧ (∀ p ∈ dispatchStorage.commit_handlers, ∀ h : CommitHandler,
             heapGet dispatchStorage.handler_objects p.2 = some h →
             heapGet heap2 p.2
               = some { h with received := h.received ++ [String.join (["a", "b"].map dispatchStorage.on_push_to_buffer)] })
        ∧ (∀ kid, kid ∉ dispatchStorage.commit_handlers.map Prod.snd →
             heapGet heap2 kid = heapGet dispatchStorage.handler_objects kid) :=
  commit_dispatch dispatchStorage ["a", "b"] rfl (by simp) (by decide)
    (by
      intro p hp
      simp only [dispatchStorage, List.mem_singleton] at hp
      subst hp
      exact ⟨recHandler, rfl, rfl⟩)

theorem mem_sortedInsert {β : Type} (l : List (Int × β)) (k : Int) (v : β) :
    ∀ x ∈ sortedInsert l k v, x = (k, v) ∨ x ∈ l := by
  induction l with
  | nil => simp [sortedInsert]
  | cons kv rest ih =>
    obtain ⟨k1, v1⟩ := kv
    intro x hx
    by_cases h1 : k < k1
    · simp only [sortedInsert, if_pos h1, List.mem_cons] at hx
      rcases hx with h | h | h
      · exact Or.inl h
      · exact Or.inr (by simp [h])
      · exact Or.inr (List.mem_cons_of_mem _ h)
    · by_cases h2 : k = k1
      · simp only [sortedInsert, if_neg h1, if_pos h2, List.mem_cons] at hx
        rcases hx with h | h
        · exact Or.inl h
        · exact Or.inr (List.mem_cons_of_mem _ h)
      · simp only [sortedInsert, if_neg h1, if_neg h2, List.mem_cons] at hx
        rcases hx with h | h
        · exact Or.inr (by simp [h])
        · rcases ih x h with h3 | h3
          · exact Or.inl h3
          · exact Or.inr (List.mem_cons_of_mem _ h3)

theorem sortedInsert_pairwise {β : Type} (k : Int) (v : β)
    (l : List (Int × β)) (h : prioritiesAscending l) :
    prioritiesAscending (sortedInsert l k v) := by
  induction l with
  | nil => simp [sortedInsert, prioritiesAscending]
  | cons kv rest ih =>
    obtain ⟨k1, v1⟩ := kv
    simp only [prioritiesAscending, List.pairwise_cons] at h
    obtain ⟨hhead, hrest⟩ := h
    by_cases h1 : k < k1
    · simp only [sortedInsert, if_pos h1, prioritiesAscending, List.pairwise_cons]
      refine ⟨?_, hhead, hrest⟩
      intro b hb
      rcases List.mem_cons.mp hb with he | hm
      · simp [he, h1]
      · exact lt_trans h1 (hhead b hm)
    · by_cases h2 : k = k1
      · simp only [sortedInsert, if_neg h1, if_pos h2, prioritiesAscending,
          List.pairwise_cons]
        exact ⟨fun b hb => h2 ▸ hhead b hb, hrest⟩
      · simp only [sortedInsert, if_neg h1, if_neg h2, prioritiesAscending,
          List.pairwise_cons]
        refine ⟨?_, ih hrest⟩
        intro b hb
        rcases mem_sortedInsert rest k v b hb with he | hm
        · have : k1 < k := by
            rcases lt_trichotomy k k1 with hh | hh | hh
            · exact absurd hh h1
            · exact absurd hh h2
            · exact hh
          simp [he, this]
        · exact hhead b hm

theorem sortedInsert_perm {β : Type} (k : Int) (v : β) :
    ∀ l : List (Int × β), k ∉ l.map Prod.fst →
    List.Perm (sortedInsert l k v) ((k, v) :: l) := by
  intro l
  induction l with
  | nil => intro _; simp [sortedInsert]
  | cons kv rest ih =>
    obtain ⟨k1, v1⟩ := kv
    intro hk
    simp only [List.map_cons, List.mem_cons, not_or] at hk
    by_cases h1 : k < k1
    · simp [sortedInsert, if_pos h1]
    · have h2 : ¬ k = k1 := hk.1
      simp only [sortedInsert, if_neg h1, if_neg h2]
      exact List.Perm.trans (List.Perm.cons _ (ih hk.2)) (List.Perm.swap _ _ _)

theorem register_collect_filter_ok (s s2 : MemoryDataStorage)
    (fname : String) (p : Int) (f : FilterFun)
    (h : s.register_collect_filter fname p f = .ok s2) :
    s2.collect_filters = sortedInsert s.collect_filters p f
    ∧ p ∉ s.collect_filters.map Prod.fst := by
  by_cases h1 : fname ∈ dictKeys s.collect_filters_priority_map
  · simp [MemoryDataStorage.register_collect_filter, h1] at h
  · simp only [MemoryDataStorage.register_collect_filter, if_neg h1] at h
    rcases hb : bidictSet s.collect_filters_priority_map fname p with e | m
    · rw [hb] at h
      simp at h
    · rw [hb] at h
      by_cases h2 : p ∈ s.collect_filters.map Prod.fst
      · simp [if_pos h2] at h
      · simp only [if_neg h2] at h
        injection h with h3
        exact ⟨by rw [← h3], h2⟩

theorem register_all_chain : ∀ (regs : List (String × Int × FilterFun))
    (s s2 : MemoryDataStorage), register_all s regs = .ok s2 →
    List.Perm s2.collect_filters
      (regs.map (fun r => (r.2.1, r.2.2)) ++ s.collect_filters)
    ∧ (prioritiesAscending s.collect_filters →
        prioritiesAscending s2.collect_filters) := by
  intro regs
  induction regs with
  | nil =>
    intro s s2 h
    injection h with h1
    subst h1
    exact ⟨by simp, fun hh => hh⟩
  | cons r rest ih =>
    intro s s2 h
    obtain ⟨n, p, f⟩ := r
    rcases hr : s.register_collect_filter n p f with e | s1
    · simp only [register_all, hr] at h
      exact Except.noConfusion h
    · simp only [register_all, hr] at h
      obtain ⟨hperm, hsort⟩ := ih s1 s2 h
      obtain ⟨hchain, hfresh⟩ := register_collect_filter_ok s s1 n p f hr
      have hstep : List.Perm s1.collect_filters ((p, f) :: s.collect_filters) := by
        rw [hchain]
        exact sortedInsert_perm p f s.collect_filters hfresh
      constructor
      · simp only [List.map_cons, List.cons_append]
        exact (hperm.trans (List.Perm.append_left _ hstep)).trans List.perm_middle
      · intro hs
        exact hsort (by rw [hchain]; exact sortedInsert_pairwise p f _ hs)

theorem pairwise_key_perm_eq {β : Type} : ∀ (l1 l2 : List (Int × β)),
    List.Perm l1 l2 → prioritiesAscending l1 → prioritiesAscending l2 →
    l1 = l2 := by
  intro l1
  induction l1 with
  | nil =>
    intro l2 hp _ _
    exact (List.Perm.nil_eq hp).symm.symm
  | cons a l1 ih =>
    intro l2 hp hs1 hs2
    cases l2 with
    | nil => exact absurd hp.symm (by simp)
    | cons b l2 =>
      simp only [prioritiesAscending, List.pairwise_cons] at hs1 hs2
      have hab : a = b := by
        have ha : a ∈ b :: l2 := hp.subset (List.mem_cons_self _ _)
        have hb : b ∈ a :: l1 := hp.symm.subset (List.mem_cons_self _ _)
        rcases List.mem_cons.mp ha with he | ha2
        · exact he
        · rcases List.mem_cons.mp hb with he | hb2
          · exact he.symm
          · exact absurd (hs1.1 b hb2) (lt_asymm (hs2.1 a ha2))
      subst hab
      exact congrArg (List.cons a) (ih l2 (List.Perm.cons_inv hp) hs1.2 hs2.2)

/-- C7: for every successfully registered filter chain, on_push_to_buffer
folds the text through the chain entries (each transform consuming the
previous output); the chain holds exactly one entry per registered
transform; iteration order is strictly ascending priority; the resulting
chain, and hence the applied transformation, is independent of the
registration order; and the empty chain of a fresh storage returns the
input unchanged. -/
theorem filter_chain_spec (regs regs2 : List (String × Int × FilterFun))
    (s s2 : MemoryDataStorage) (text : String)
    (hreg : register_all emptyStorage regs = .ok s)
    (hreg2 : register_all emptyStorage regs2 = .ok s2)
    (hperm : List.Perm regs regs2) :
    s.on_push_to_buffer text
      = s.collect_filters.foldl (fun middle_value kv => kv.2 middle_value) text
    ∧ List.Perm s.collect_filters (regs.map (fun r => (r.2.1, r.2.2)))
    ∧ prioritiesAscending s.collect_filters
    ∧ s2.collect_filters = s.collect_filters
    ∧ emptyStorage.on_push_to_buffer text = text := by
  obtain ⟨hp1, hs1⟩ := register_all_chain regs emptyStorage s hreg
  obtain ⟨hp2, hs2⟩ := register_all_chain regs2 emptyStorage s2 hreg2
  have hsorted1 : prioritiesAscending s.collect_filters :=
    hs1 (by simp [emptyStorage, prioritiesAscending])
  have hsorted2 : prioritiesAscending s2.collect_filters :=
    hs2 (by simp [emptyStorage, prioritiesAscending])
  have hperm1 : List.Perm s.collect_filters
      (regs.map (fun r => (r.2.1, r.2.2))) := by
    simpa [emptyStorage] using hp1
  have hperm2 : List.Perm s2.collect_filters
      (regs2.map (fun r => (r.2.1, r.2.2))) := by
    simpa [emptyStorage] using hp2
  refine ⟨rfl, hperm1, hsorted1, ?_, rfl⟩
  exact pairwise_key_perm_eq s2.collect_filters s.collect_filters
    (hperm2.trans ((hperm.map (fun r => (r.2.1, r.2.2))).symm.trans hperm1.symm))
    hsorted2 hsorted1

/-- C7 witness: registering the two scenario filters in either order
succeeds and produces the identical sorted chain. -/
theorem filter_chain_spec_witness :
    register_all emptyStorage chainRegsA = .ok chainStorageA
    ∧ register_all emptyStorage chainRegsB = .ok chainStorageB
    ∧ chainStorageB.collect_filters = chainStorageA.collect_filters :=
  ⟨rfl, rfl,
    (filter_chain_spec chainRegsA chainRegsB chainStorageA chainStorageB "a b."
      rfl rfl (List.Perm.swap _ _ _)).2.2.2.1⟩

/-- C5: on a storage whose priority map and filter chain are in sync (as
every reachable storage is), registering a filter under a duplicate name,
or under a duplicate priority, raises a configuration error with the
filter chain, both maps included, exactly as before the attempt: the
duplicate name is rejected before any mutation, and the duplicate priority
makes the bidict assignment itself raise ValueDuplicationError, which is
fail-clean, before the code reaches its own duplicate-priority check. -/
theorem register_collect_filter_duplicate (s : MemoryDataStorage)
    (fname : String) (p : Int) (f : FilterFun)
    (hinv : ∀ q : Int, q ∈ s.collect_filters_priority_map.map Prod.snd
      ↔ q ∈ s.collect_filters.map Prod.fst)
    (hdup : fname ∈ dictKeys s.collect_filters_priority_map
      ∨ p ∈ s.collect_filters.map Prod.fst) :
    s.register_collect_filter fname p f
        = .error (.runtimeError "Duplicate filter name", s)
    ∨ s.register_collect_filter fname p f
        = .error (.valueDuplicationError, s) := by
  by_cases hname : fname ∈ dictKeys s.collect_filters_priority_map
  · left
    simp [MemoryDataStorage.register_collect_filter, hname]
  · right
    have hp : p ∈ s.collect_filters.map Prod.fst := by
      rcases hdup with h | h
      · exact absurd h hname
      · exact h
    have hpm : p ∈ s.collect_filters_priority_map.map Prod.snd := (hinv p).mpr hp
    have hfind : ∃ kv, s.collect_filters_priority_map.find?
        (fun kv => kv.2 == p) = some kv := by
      rcases List.mem_map.mp hpm with ⟨kv, hkv, hkv2⟩
      have hsome : (s.collect_filters_priority_map.find?
          (fun kv => kv.2 == p)).isSome :=
        List.find?_isSome.mpr ⟨kv, hkv, by simp [hkv2]⟩
      exact Option.isSome_iff_exists.mp hsome
    obtain ⟨kv, hfind⟩ := hfind
    have hkvmem := List.mem_of_find?_eq_some hfind
    have hkvne : ¬ kv.1 = fname := by
      intro he
      exact hname (by rw [← he]; exact List.mem_map_of_mem Prod.fst hkvmem)
    simp [MemoryDataStorage.register_collect_filter, hname, bidictSet,
      hfind, hkvne]

/-- C5 witness: on a storage with the filter a at priority 0, registering
the fresh name b at the already-used priority 0 raises with the storage
unchanged. -/
theorem register_collect_filter_duplicate_witness :
    dupFilterStorage.register_collect_filter "b" 0 AppendSpaceFilter.filter
        = .error (.runtimeError "Duplicate filter name", dupFilterStorage)
    ∨ dupFilterStorage.register_collect_filter "b" 0 AppendSpaceFilter.filter
        = .error (.valueDuplicationError, dupFilterStorage) :=
  register_collect_filter_duplicate dupFilterStorage "b" 0 AppendSpaceFilter.filter
    (by intro q; simp [dupFilterStorage])
    (Or.inr (by simp [dupFilterStorage]))

theorem register_commit_handler_ok (s s1 : MemoryDataStorage)
    (name : String) (hid : Nat)
    (h : s.register_commit_handler name hid = .ok s1) :
    name ∉ dictKeys s.commit_handlers
    ∧ ∃ h0 : CommitHandler, heapGet s.handler_objects hid = some h0
        ∧ "default_callback" ∉ dictKeys h0.callbacks
        ∧ s1 = { s with
            handler_objects := heapSet s.handler_objects hid { h0 with callbacks := h0.callbacks ++ [("default_callback", CallbackVal.defaultCallback)] },
            commit_handlers := s.commit_handlers ++ [(name, hid)] } := by
  by_cases h1 : name ∈ dictKeys s.commit_handlers
  · simp [MemoryDataStorage.register_commit_handler, h1] at h
  · refine ⟨h1, ?_⟩
    rcases hg : heapGet s.handler_objects hid with _ | h0
    · simp [MemoryDataStorage.register_commit_handler, h1, hg] at h
    · by_cases h2 : "default_callback" ∈ dictKeys h0.callbacks
      · simp [MemoryDataStorage.register_commit_handler, h1, hg,
          CommitHandler.register_callback, h2] at h
      · refine ⟨h0, rfl, h2, ?_⟩
        simp only [MemoryDataStorage.register_commit_handler, if_neg h1, hg,
          CommitHandler.register_callback, if_neg h2] at h
        injection h with h3
        exact h3.symm

/-- C9 amended: deregistering a commit handler removes only the registry
entry and never removes the reserved default_callback from the handler
instance; re-registering the same instance under any name NOT currently in
the handler registry (in particular, under any name after deregistering
it) raises the Duplicate callback name error.  (Under a name currently
registered, the registry check fires first instead, raising Duplicate
commit handler name.) -/
theorem reregister_commit_handler (s0 s1 : MemoryDataStorage)
    (n : String) (hid : Nat)
    (hreg : s0.register_commit_handler n hid = .ok s1) :
    (∀ m : String, m ∉ dictKeys s1.commit_handlers →
       s1.register_commit_handler m hid
         = .error (.runtimeError "Duplicate callback name", s1))
    ∧ s1.deregister_commit_handler n
        = .ok { s1 with commit_handlers := s0.commit_handlers }
    ∧ (∃ h1 : CommitHandler, heapGet s1.handler_objects hid = some h1
        ∧ "default_callback" ∈ dictKeys h1.callbacks)
    ∧ (∀ m : String, m ∉ dictKeys s0.commit_handlers →
         ({ s1 with commit_handlers := s0.commit_handlers
          } : MemoryDataStorage).register_commit_handler m hid
           = .error (.runtimeError "Duplicate callback name",
               { s1 with commit_handlers := s0.commit_handlers })) := by
  obtain ⟨hn, h0, hg, hnc, hs1⟩ := register_commit_handler_ok s0 s1 n hid hreg
  have hg1 : heapGet s1.handler_objects hid
      = some { h0 with callbacks := h0.callbacks ++ [("default_callback", CallbackVal.defaultCallback)] } := by
    rw [hs1]
    exact heapGet_heapSet_self _ _ _ h0 hg
  have hmem1 : "default_callback"
      ∈ dictKeys ({ h0 with callbacks := h0.callbacks ++ [("default_callback", CallbackVal.defaultCallback)] } : CommitHandler).callbacks := by
    simp [dictKeys]
  have hch : s1.commit_handlers = s0.commit_handlers ++ [(n, hid)] := by
    rw [hs1]
  refine ⟨?_, ?_, ?_, ?_⟩
  · intro m hm
    simp [MemoryDataStorage.register_commit_handler, hm, hg1,
      CommitHandler.register_callback, hmem1]
  · simp [MemoryDataStorage.deregister_commit_handler, hch,
      assocPop_append_last s0.commit_handlers n hid hn]
  · exact ⟨_, hg1, hmem1⟩
  · intro m hm
    have hg2 : heapGet ({ s1 with commit_handlers := s0.commit_handlers
        } : MemoryDataStorage).handler_objects hid
        = some { h0 with callbacks := h0.callbacks ++ [("default_callback", CallbackVal.defaultCallback)] } := hg1
    simp [MemoryDataStorage.register_commit_handler, hm, hg2,
      CommitHandler.register_callback, hmem1]

/-- C9 witness: after registering the fresh handler instance under the
name n, re-registering the same instance under the fresh name m raises
Duplicate callback name. -/
theorem reregister_commit_handler_witness :
    c9Storage0.register_commit_handler "n" 1 = .ok c9Storage1
    ∧ c9Storage1.register_commit_handler "m" 1
        = .error (.runtimeError "Duplicate callback name", c9Storage1) :=
  ⟨rfl, (reregister_commit_handler c9Storage0 c9Storage1 "n" 1 rfl).1 "m"
    (by simp [c9Storage1, dictKeys])⟩

/-- C9 counterexample: the claim as stated fails for the one name still in
the registry.  Re-registering the same instance under the same
still-registered name n raises Duplicate commit handler name, not the
Duplicate callback name error the claim predicts for every name. -/
theorem reregister_same_name_wrong_error :
    c9Storage0.register_commit_handler "n" 1 = .ok c9Storage1
    ∧ c9Storage1.register_commit_handler "n" 1
        = .error (.runtimeError "Duplicate commit handler name", c9Storage1)
    ∧ PyErr.runtimeError "Duplicate commit handler name"
        ≠ PyErr.runtimeError "Duplicate callback name" :=
  ⟨rfl, rfl, by decide⟩
